import Mathlib

/-!
Verification development for the staged virtual file-system overlay of the
`filemod` repository (`src/unifiedFileSystem.ts` and the command engine in the
same source bundle).  The TypeScript classes and functions are shallowly
embedded as Lean definitions: JavaScript `Map`s become insertion-ordered
association lists (`Map.set` replaces in place, `Map.get`/`Map.has` search by
key, `forEach` iterates in insertion order), asynchronous backing collaborators
become explicit function parameters gathered in a `World`, and thrown/absent
results become `Option`-shaped values.  Every facade operation additionally
reports the backing-collaborator calls it performs as a list of `Event`s, so
that "the collaborator is not consulted" claims are expressible.
-/

namespace Filemod

/-- Kinds of `UnifiedEntry` (`kind: 'file' | 'directory'` in the source). -/
inductive EntryKind where
  | file
  | directory
deriving DecidableEq, Repr

/-- `UnifiedFile` / `UnifiedDirectory` from `unifiedFileSystem.ts`, merged into
one structure carrying the kind tag and the canonical path. -/
structure UnifiedEntry where
  kind : EntryKind
  path : String
deriving DecidableEq, Repr

/-- `PathHashDigest` is a branded string in the source; the brand has no
computational content, so the embedding uses plain strings. -/
abbrev PathHashDigest := String

/-- JS `Map.get`: first (and only, keys are unique) value stored at `k`,
`none` when the map has no entry for `k` (`undefined` in JS). -/
def mapGet {α : Type} : List (PathHashDigest × α) → PathHashDigest → Option α
  | [], _ => none
  | (k', v) :: rest, k => if k' = k then some v else mapGet rest k

/-- JS `Map.set`: replace the value in place when the key is present (keeping
its original insertion position, as JS `Map` does), append otherwise. -/
def mapSet {α : Type} : List (PathHashDigest × α) → PathHashDigest → α →
    List (PathHashDigest × α)
  | [], k, v => [(k, v)]
  | (k', v') :: rest, k, v =>
      if k' = k then (k, v) :: rest else (k', v') :: mapSet rest k v

/-- JS `Map.has`. -/
def mapHas {α : Type} (m : List (PathHashDigest × α)) (k : PathHashDigest) : Bool :=
  (mapGet m k).isSome

/-- Modelled from the spec: the source imports `LeftRightHashSetManager` from
`./leftRightHashSetManager.js`, whose code is not among the provided sources.
The spec describes the Directory Membership Index it backs as "a bidirectional
multimap from a directory's key to the keys of children observed under it"
which "supports children-of queries and grows monotonically (sticky union)"
within a run, returning children "in iteration order of first insertion".
We model it as an insertion-ordered duplicate-free list of (left, right)
pairs: `upsert` appends a pair not yet present and leaves the structure
unchanged otherwise; `getRightHashesByLeftHash` lists the rights recorded for
a left key in insertion order. -/
structure LeftRightHashSetManager where
  pairs : List (PathHashDigest × PathHashDigest)
deriving DecidableEq

/-- Modelled from the spec: add a (left, right) membership fact; the index
only ever grows and never records a duplicate. -/
def LeftRightHashSetManager.upsert (m : LeftRightHashSetManager)
    (l r : PathHashDigest) : LeftRightHashSetManager :=
  if (l, r) ∈ m.pairs then m else ⟨m.pairs ++ [(l, r)]⟩

/-- Modelled from the spec: the rights recorded under a left key, in
first-insertion order. -/
def LeftRightHashSetManager.getRightHashesByLeftHash
    (m : LeftRightHashSetManager) (l : PathHashDigest) : List PathHashDigest :=
  m.pairs.filterMap (fun q => if q.1 = l then some q.2 else none)

/-- The mutable state of one `UnifiedFileSystem` instance:
`__directoryFiles`, `__entries` and `__changes`.  A `__changes` value of
`none` is the JS `null` deletion marker; `some data` is staged content. -/
structure UFSState where
  directoryFiles : LeftRightHashSetManager
  entries : List (PathHashDigest × UnifiedEntry)
  changes : List (PathHashDigest × Option String)
deriving DecidableEq

/-- A freshly constructed `UnifiedFileSystem`: all three maps empty. -/
def initialState : UFSState := ⟨⟨[]⟩, [], []⟩

/-- The constructor-injected backing collaborators of `UnifiedFileSystem`:
`__buildPathHashDigest`, `__getUnifiedEntry`, `__readDirectory`, `__readFile`
(whose failure is modelled as `none`) and `__glob`. -/
structure World where
  hash : String → PathHashDigest
  getUnifiedEntry : String → UnifiedEntry
  readDirectoryBacking : String → List UnifiedEntry
  readFileBacking : String → Option String
  glob : String → List String → List String → List String

/-- Trace events recording which backing collaborators and repomod hooks a
run invokes; used to state non-consultation properties. -/
inductive Event where
  | globCalled (cwd : String) (includePatterns excludePatterns : List String)
  | getEntryCalled (path : String)
  | readDirCalled (path : String)
  | readFileCalled (path : String)
  | dirHookCalled (path : String)
  | fileHookCalled (path : String)
  | dataHookCalled (path : String)
deriving DecidableEq

/-- Result of `UnifiedFileSystem.readFile`: either the distinct
"This file has already been deleted" failure, or returned content. -/
inductive ReadResult where
  | alreadyDeleted
  | content (data : String)
deriving DecidableEq

namespace UnifiedFileSystem

/-- `upsertUnifiedDirectory`: on a cache miss, ask the backing
`__getUnifiedEntry`; reject (returning `none`, caching nothing) when its kind
is not `directory`, cache and return it otherwise.  On a cache hit, return the
cached entry with no backing call and no kind check. -/
def upsertUnifiedDirectory (w : World) (directoryPath : String) (s : UFSState) :
    Option UnifiedEntry × UFSState × List Event :=
  let k := w.hash directoryPath
  match mapGet s.entries k with
  | none =>
      let e := w.getUnifiedEntry directoryPath
      if e.kind = EntryKind.directory then
        (some e, { s with entries := mapSet s.entries k e },
          [Event.getEntryCalled directoryPath])
      else
        (none, s, [Event.getEntryCalled directoryPath])
  | some e => (some e, s, [])

/-- `upsertUnifiedFile`: symmetric to `upsertUnifiedDirectory` with the
expected kind `file`. -/
def upsertUnifiedFile (w : World) (filePath : String) (s : UFSState) :
    Option UnifiedEntry × UFSState × List Event :=
  let k := w.hash filePath
  match mapGet s.entries k with
  | none =>
      let e := w.getUnifiedEntry filePath
      if e.kind = EntryKind.file then
        (some e, { s with entries := mapSet s.entries k e },
          [Event.getEntryCalled filePath])
      else
        (none, s, [Event.getEntryCalled filePath])
  | some e => (some e, s, [])

/-- `upsertUnifiedEntry`: try the directory variant first, fall back to the
file variant on `none`. -/
def upsertUnifiedEntry (w : World) (path : String) (s : UFSState) :
    Option UnifiedEntry × UFSState × List Event :=
  match upsertUnifiedDirectory w path s with
  | (some e, s1, ev1) => (some e, s1, ev1)
  | (none, s1, ev1) =>
      match upsertUnifiedFile w path s1 with
      | (r, s2, ev2) => (r, s2, ev1 ++ ev2)

/-- `readDirectory`: list the directory through the backing collaborator,
record every reported child into the Directory Membership Index and the Entry
Cache (the source's two kind branches perform identical work), then return
the paths of all recorded children of this directory, in first-insertion
order. -/
def readDirectory (w : World) (directoryPath : String) (s : UFSState) :
    List String × UFSState × List Event :=
  let dk := w.hash directoryPath
  let children := w.readDirectoryBacking directoryPath
  let s1 := children.foldl
    (fun acc e =>
      let pk := w.hash e.path
      { acc with
        directoryFiles := acc.directoryFiles.upsert dk pk
        entries := mapSet acc.entries pk e }) s
  let paths := (s1.directoryFiles.getRightHashesByLeftHash dk).filterMap
    (fun pk => (mapGet s1.entries pk).map (fun e => e.path))
  (paths, s1, [Event.readDirCalled directoryPath])

/-- `readFile`: a staged deletion marker raises the distinct already-deleted
failure; staged content is returned verbatim without consulting the backing
store; otherwise the backing read is consulted and any failure is recovered
into the empty string. -/
def readFile (w : World) (s : UFSState) (path : String) :
    ReadResult × List Event :=
  match mapGet s.changes (w.hash path) with
  | none =>
      match w.readFileBacking path with
      | some d => (ReadResult.content d, [Event.readFileCalled path])
      | none => (ReadResult.content "", [Event.readFileCalled path])
  | some none => (ReadResult.alreadyDeleted, [])
  | some (some d) => (ReadResult.content d, [])

/-- `isDirectory`: pure Entry Cache lookup; no backing collaborator appears
in its signature, matching the source, which touches only `__entries`. -/
def isDirectory (w : World) (s : UFSState) (directoryPath : String) : Bool :=
  match mapGet s.entries (w.hash directoryPath) with
  | some e => e.kind = EntryKind.directory
  | none => false

/-- `exists`: pure Entry Cache membership test (named `pathExists` because
`exists` is reserved in Lean). -/
def pathExists (w : World) (s : UFSState) (directoryPath : String) : Bool :=
  mapHas s.entries (w.hash directoryPath)

/-- `getFilePaths`: run the glob collaborator restricted to `directoryPath`,
record every returned path into the Entry Cache as a file, return the paths. -/
def getFilePaths (w : World) (directoryPath : String)
    (includePatterns excludePatterns : List String) (s : UFSState) :
    List String × UFSState × List Event :=
  let paths := w.glob directoryPath includePatterns excludePatterns
  let s1 := paths.foldl
    (fun acc p =>
      { acc with entries := mapSet acc.entries (w.hash p) ⟨EntryKind.file, p⟩ }) s
  (paths, s1, [Event.globCalled directoryPath includePatterns excludePatterns])

/-- `deleteFile`: unconditionally record the path as a file Entry and stage a
deletion marker (JS `null`, here `none`) in the Change Ledger. -/
def deleteFile (w : World) (s : UFSState) (filePath : String) : UFSState :=
  let k := w.hash filePath
  { s with
    entries := mapSet s.entries k ⟨EntryKind.file, filePath⟩
    changes := mapSet s.changes k none }

/-- `upsertData`: unconditionally record the path as a file Entry and stage
`data` as the Ledger content for it. -/
def upsertData (w : World) (s : UFSState) (filePath : String) (data : String) :
    UFSState :=
  let k := w.hash filePath
  { s with
    entries := mapSet s.entries k ⟨EntryKind.file, filePath⟩
    changes := mapSet s.changes k (some data) }

end UnifiedFileSystem

/-- `ExternalFileCommand` from `externalFileCommands.ts` as consumed by
`buildExternalFileCommands`. -/
inductive ExternalFileCommand where
  | upsertFile (path : String) (data : String)
  | deleteFile (path : String)
deriving DecidableEq, Repr

/-- `buildExternalFileCommands`: one external command per Change Ledger entry
whose key is present in the Entry Cache, in ledger insertion order; a `none`
(JS `null`) value yields `deleteFile`, content yields `upsertFile`. -/
def UnifiedFileSystem.buildExternalFileCommands (s : UFSState) :
    List ExternalFileCommand :=
  s.changes.filterMap
    (fun kv =>
      match mapGet s.entries kv.1, kv.2 with
      | some e, none => some (ExternalFileCommand.deleteFile e.path)
      | some e, some d => some (ExternalFileCommand.upsertFile e.path d)
      | none, _ => none)

/-- Option bags threaded through commands (`Record<string, string>`). -/
abbrev Options := List (String × String)

/-- The `FileCommand` union of the engine source (`DeleteFileCommand` there
carries no options). -/
inductive FileCommand where
  | upsertFile (path : String) (options : Options)
  | deleteFile (path : String)
  | moveFile (oldPath newPath : String) (options : Options)
  | copyFile (oldPath newPath : String) (options : Options)
deriving DecidableEq

/-- The `DirectoryCommand` union. -/
inductive DirectoryCommand where
  | handleDirectory (path : String) (options : Options)
  | handleFile (path : String) (options : Options)
deriving DecidableEq

/-- The `DataCommand` union (`UpsertDataCommand` carries its own path). -/
inductive DataCommand where
  | upsertData (path : String) (data : String)
  | noop
deriving DecidableEq

/-- `Command = DirectoryCommand | FileCommand | DataCommand`, embedded as a
tagged sum of the three families. -/
inductive Command where
  | dir (c : DirectoryCommand)
  | file (c : FileCommand)
  | data (c : DataCommand)
deriving DecidableEq

/-- A repomod: optional include/exclude patterns and optional hooks.  A hook
receives its path/data/options arguments and the current facade state (in the
source it receives an API capable of reading and, through `readDirectory`,
mutating that state) and produces its commands plus the state as the hook
left it. -/
structure Repomod where
  includePatterns : Option (List String) := none
  excludePatterns : Option (List String) := none
  handleDirectory :
    Option (String → Options → UFSState → List DirectoryCommand × UFSState) := none
  handleFile :
    Option (String → Options → UFSState → List FileCommand × UFSState) := none
  handleData :
    Option (String → String → Options → UFSState → DataCommand × UFSState) := none

/-- `defaultHandleDirectory`: list the directory through the facade, then one
`handleDirectory` per child that the Entry Cache reports as a directory and
one `handleFile` per other child, in listing order. -/
def defaultHandleDirectory (w : World) (directoryPath : String)
    (options : Options) (s : UFSState) : List DirectoryCommand × UFSState :=
  match UnifiedFileSystem.readDirectory w directoryPath s with
  | (paths, s1, _) =>
      (paths.map (fun p =>
        if UnifiedFileSystem.isDirectory w s1 p then
          DirectoryCommand.handleDirectory p options
        else
          DirectoryCommand.handleFile p options), s1)

/-- `defaultHandleFile`: a single identity `upsertFile` command. -/
def defaultHandleFile (path : String) (options : Options) (s : UFSState) :
    List FileCommand × UFSState :=
  ([FileCommand.upsertFile path options], s)

/-- `defaultHandleData`: always `noop`. -/
def defaultHandleData (_path _data : String) (_options : Options)
    (s : UFSState) : DataCommand × UFSState :=
  (DataCommand.noop, s)

/-- Result of running the interpreter on one command: the facade state, the
trace of collaborator/hook invocations, and whether a fatal condition (the
already-deleted read) propagated, aborting the rest of the run. -/
structure RunResult where
  state : UFSState
  events : List Event
  fatal : Bool
deriving DecidableEq

/-- Sequential dispatch of a command list: each command is fully resolved
before the next sibling starts; a fatal condition stops the remaining
siblings and propagates. -/
def runList (step : Command → UFSState → RunResult) :
    List Command → UFSState → RunResult
  | [], s => ⟨s, [], false⟩
  | c :: cs, s =>
      let r := step c s
      if r.fatal then r
      else
        let r2 := runList step cs r.state
        ⟨r2.state, r.events ++ r2.events, r2.fatal⟩

/-- The tail of the `handleDirectory` branch of `handleCommand`, after the
include-pattern fast path: call `upsertFacadeDirectory`; on `none`, abandon
the branch (the directory hook is not invoked and nothing further runs);
otherwise invoke the directory hook (default or repomod-supplied) and
recurse, via `step`, into each command it returned, in order.  `pre` carries
the events already emitted by the fast path. -/
def afterFastPath (w : World) (rm : Repomod)
    (step : Command → UFSState → RunResult) (p : String) (opts : Options)
    (s : UFSState) (pre : List Event) : RunResult :=
  match UnifiedFileSystem.upsertUnifiedDirectory w p s with
  | (none, s2, ev2) => ⟨s2, pre ++ ev2, false⟩
  | (some _, s2, ev2) =>
      let hook := rm.handleDirectory.getD (defaultHandleDirectory w)
      match hook p opts s2 with
      | (cmds, s3) =>
          let r := runList step (cmds.map Command.dir) s3
          ⟨r.state, pre ++ ev2 ++ [Event.dirHookCalled p] ++ r.events, r.fatal⟩

/-- `handleCommand`, the recursive depth-first dispatcher, indexed by fuel
(the source recurses without bound; exhausted fuel returns the state
unchanged).  Branches mirror the source's five interpreted kinds;
`moveFile`/`copyFile`/`noop` match none of them and fall through.  A fatal
condition raised inside the include-pattern fast path propagates without
reaching `upsertFacadeDirectory`, as a thrown exception does in the
source. -/
def handleCommand (w : World) (rm : Repomod) :
    Nat → Command → UFSState → RunResult
  | 0, _, s => ⟨s, [], false⟩
  | Nat.succ f, Command.dir (DirectoryCommand.handleDirectory p opts), s =>
      match rm.includePatterns with
      | some inc =>
          match UnifiedFileSystem.getFilePaths w p inc
              (rm.excludePatterns.getD []) s with
          | (paths, s1, ev1) =>
              let r := runList (handleCommand w rm f)
                (paths.map (fun q =>
                  Command.dir (DirectoryCommand.handleFile q opts))) s1
              if r.fatal then ⟨r.state, ev1 ++ r.events, true⟩
              else afterFastPath w rm (handleCommand w rm f) p opts r.state
                (ev1 ++ r.events)
      | none => afterFastPath w rm (handleCommand w rm f) p opts s []
  | Nat.succ f, Command.dir (DirectoryCommand.handleFile p opts), s =>
      match UnifiedFileSystem.upsertUnifiedFile w p s with
      | (none, s1, ev1) => ⟨s1, ev1, false⟩
      | (some _, s1, ev1) =>
          let hook := rm.handleFile.getD defaultHandleFile
          match hook p opts s1 with
          | (cmds, s2) =>
              let r := runList (handleCommand w rm f) (cmds.map Command.file) s2
              ⟨r.state, ev1 ++ [Event.fileHookCalled p] ++ r.events, r.fatal⟩
  | Nat.succ f, Command.file (FileCommand.upsertFile p opts), s =>
      match UnifiedFileSystem.readFile w s p with
      | (ReadResult.alreadyDeleted, ev1) => ⟨s, ev1, true⟩
      | (ReadResult.content d, ev1) =>
          let hook := rm.handleData.getD defaultHandleData
          match hook p d opts s with
          | (dc, s2) =>
              let r := handleCommand w rm f (Command.data dc) s2
              ⟨r.state, ev1 ++ [Event.dataHookCalled p] ++ r.events, r.fatal⟩
  | Nat.succ _, Command.file (FileCommand.deleteFile p), s =>
      ⟨UnifiedFileSystem.deleteFile w s p, [], false⟩
  | Nat.succ _, Command.file (FileCommand.moveFile _ _ _), s => ⟨s, [], false⟩
  | Nat.succ _, Command.file (FileCommand.copyFile _ _ _), s => ⟨s, [], false⟩
  | Nat.succ _, Command.data (DataCommand.upsertData p d), s =>
      ⟨UnifiedFileSystem.upsertData w s p d, [], false⟩
  | Nat.succ _, Command.data DataCommand.noop, s => ⟨s, [], false⟩

/-- `executeRepomod`: resolve the root's kind, dispatch an initial
`handleDirectory` or `handleFile` accordingly, then drain the Change Ledger
into external commands.  A root resolving to neither kind yields the empty
result. -/
def executeRepomod (w : World) (rm : Repomod) (fuel : Nat) (path : String)
    (options : Options) : List ExternalFileCommand :=
  match UnifiedFileSystem.upsertUnifiedEntry w path initialState with
  | (none, _, _) => []
  | (some e, s1, _) =>
      let c : Command :=
        if e.kind = EntryKind.directory then
          Command.dir (DirectoryCommand.handleDirectory path options)
        else
          Command.dir (DirectoryCommand.handleFile path options)
      let r := handleCommand w rm fuel c s1
      UnifiedFileSystem.buildExternalFileCommands r.state

/-! ### Concrete worlds used by witnesses and counterexamples -/

/-- A simple concrete world: the identity digest, every path described as a
file by the backing store, an empty backing directory listing, a failing
backing read, and an empty glob. -/
def wId : World where
  hash := fun p => p
  getUnifiedEntry := fun p => ⟨EntryKind.file, p⟩
  readDirectoryBacking := fun _ => []
  readFileBacking := fun _ => none
  glob := fun _ _ _ => []

/-- Recogniser for `handleDirectory` commands; every other command kind can
never lead the dispatcher to invoke a directory hook. -/
def isHandleDirectoryCommand : Command → Bool
  | Command.dir (DirectoryCommand.handleDirectory _ _) => true
  | _ => false

/-- One public state-touching facade operation, used to quantify over "any
further facade activity in the run". -/
inductive FacadeOp where
  | opUpsertDirectory (path : String)
  | opUpsertFile (path : String)
  | opUpsertEntry (path : String)
  | opReadDirectory (path : String)
  | opGetFilePaths (path : String) (includePatterns excludePatterns : List String)
  | opReadFile (path : String)
  | opDeleteFile (path : String)
  | opUpsertData (path : String) (data : String)

/-- The state transition of one facade operation (`readFile`, `isDirectory`,
`exists` and `buildExternalFileCommands` leave the state unchanged). -/
def applyOp (w : World) (s : UFSState) : FacadeOp → UFSState
  | FacadeOp.opUpsertDirectory p =>
      (UnifiedFileSystem.upsertUnifiedDirectory w p s).2.1
  | FacadeOp.opUpsertFile p => (UnifiedFileSystem.upsertUnifiedFile w p s).2.1
  | FacadeOp.opUpsertEntry p => (UnifiedFileSystem.upsertUnifiedEntry w p s).2.1
  | FacadeOp.opReadDirectory p => (UnifiedFileSystem.readDirectory w p s).2.1
  | FacadeOp.opGetFilePaths p inc exc =>
      (UnifiedFileSystem.getFilePaths w p inc exc s).2.1
  | FacadeOp.opReadFile _ => s
  | FacadeOp.opDeleteFile p => UnifiedFileSystem.deleteFile w s p
  | FacadeOp.opUpsertData p d => UnifiedFileSystem.upsertData w s p d

/-- World for the C8 witness, first listing: `/d` has children `/d/a` and
`/d/b`. -/
def wC8first : World :=
  { wId with
    readDirectoryBacking := fun _ =>
      [⟨EntryKind.file, "/d/a"⟩, ⟨EntryKind.file, "/d/b"⟩] }

/-- World for the C8 witness, second listing: the backing store now reports
only `/d/a` under `/d`. -/
def wC8second : World :=
  { wId with readDirectoryBacking := fun _ => [⟨EntryKind.file, "/d/a"⟩] }

/-- World for the C9 witness: the glob collaborator matches `/x`, every path
is described as a file by the backing store (so upserting `/d` as a
directory fails), and backing reads yield `"c"`. -/
def wC9 : World :=
  { wId with
    glob := fun _ _ _ => ["/x"]
    readFileBacking := fun _ => some "c" }

/-- Repomod for the C9 witness: include patterns declared, all hooks left to
their defaults. -/
def rmC9 : Repomod := { includePatterns := some ["*"] }

/-- World for the C10 counterexample: the backing store lists `/d/p` as a
directory child of every directory it is asked about. -/
def wC10 : World :=
  { wId with readDirectoryBacking := fun _ => [⟨EntryKind.directory, "/d/p"⟩] }

/-- The facade state of the C9 witness after its include-pattern fast path:
only `/x` cached, as a file. -/
def sC9 : UFSState := ⟨⟨[]⟩, [("/x", ⟨EntryKind.file, "/x"⟩)], []⟩

/-! ### Association-list map lemmas -/

theorem mapGet_mapSet_self {α : Type} (m : List (PathHashDigest × α))
    (k : PathHashDigest) (v : α) : mapGet (mapSet m k v) k = some v := by
  induction m with
  | nil => simp [mapSet, mapGet]
  | cons kv rest ih =>
      obtain ⟨k', v'⟩ := kv
      by_cases h : k' = k
      · subst h
        simp [mapSet, mapGet]
      · simp [mapSet, mapGet, h, ih]

theorem mapGet_mapSet_ne {α : Type} (m : List (PathHashDigest × α))
    (k' k : PathHashDigest) (v : α) (h : k' ≠ k) :
    mapGet (mapSet m k' v) k = mapGet m k := by
  induction m with
  | nil => simp [mapSet, mapGet, h]
  | cons kv rest ih =>
      obtain ⟨k0, v0⟩ := kv
      by_cases h0 : k0 = k'
      · subst h0
        simp [mapSet, mapGet, h]
      · by_cases h1 : k0 = k
        · subst h1
          simp [mapSet, mapGet, h0, ih]
        · simp [mapSet, mapGet, h0, h1, ih]

theorem mapGet_isSome_mapSet {α : Type} (m : List (PathHashDigest × α))
    (k' k : PathHashDigest) (v : α) (h : (mapGet m k).isSome) :
    (mapGet (mapSet m k' v) k).isSome := by
  by_cases hk : k' = k
  · subst hk
    simp [mapGet_mapSet_self]
  · rwa [mapGet_mapSet_ne m k' k v hk]

theorem keys_mapSet {α : Type} (m : List (PathHashDigest × α))
    (k : PathHashDigest) (v : α) :
    (mapSet m k v).map Prod.fst =
      if (mapGet m k).isSome then m.map Prod.fst
      else m.map Prod.fst ++ [k] := by
  induction m with
  | nil => simp [mapSet, mapGet]
  | cons kv rest ih =>
      obtain ⟨k0, v0⟩ := kv
      by_cases h0 : k0 = k
      · subst h0
        simp [mapSet, mapGet]
      · by_cases hs : (mapGet rest k).isSome
        · simp [mapSet, mapGet, h0, ih, hs]
        · simp [mapSet, mapGet, h0, ih, hs]

theorem not_mem_keys_of_mapGet_none {α : Type} (m : List (PathHashDigest × α))
    (k : PathHashDigest) (h : mapGet m k = none) : k ∉ m.map Prod.fst := by
  induction m with
  | nil => simp
  | cons kv rest ih =>
      obtain ⟨k0, v0⟩ := kv
      by_cases h0 : k0 = k
      · simp [mapGet, h0] at h
      · simp only [mapGet, if_neg h0] at h
        simp [Ne.symm h0, ih h]

theorem keys_mapSet_nodup {α : Type} (m : List (PathHashDigest × α))
    (k : PathHashDigest) (v : α) (h : (m.map Prod.fst).Nodup) :
    ((mapSet m k v).map Prod.fst).Nodup := by
  rw [keys_mapSet]
  by_cases hs : (mapGet m k).isSome
  · simpa [hs] using h
  · have hnone : mapGet m k = none := by
      cases hg : mapGet m k with
      | none => rfl
      | some x => simp [hg] at hs
    have hk := not_mem_keys_of_mapGet_none m k hnone
    simp [hnone, List.nodup_append, h, hk]

/-! ### Preservation and trace helper lemmas -/

theorem foldl_preserve {σ α : Type} (P : σ → Prop) (f : σ → α → σ)
    (hf : ∀ s a, P s → P (f s a)) :
    ∀ (l : List α) (s : σ), P s → P (l.foldl f s) := by
  intro l
  induction l with
  | nil => intro s hs; simpa using hs
  | cons a l ih => intro s hs; simpa using ih (f s a) (hf s a hs)

theorem mem_pairs_upsert (m : LeftRightHashSetManager)
    (l r x y : PathHashDigest) (h : (l, r) ∈ m.pairs) :
    (l, r) ∈ (m.upsert x y).pairs := by
  unfold LeftRightHashSetManager.upsert
  by_cases hmem : (x, y) ∈ m.pairs
  · simpa [hmem] using h
  · simp only [hmem, if_false]
    exact List.mem_append_left _ h

theorem readDirectory_state (w : World) (dp : String) (s : UFSState) :
    (UnifiedFileSystem.readDirectory w dp s).2.1 =
      (w.readDirectoryBacking dp).foldl
        (fun acc e =>
          { acc with
            directoryFiles := acc.directoryFiles.upsert (w.hash dp) (w.hash e.path)
            entries := mapSet acc.entries (w.hash e.path) e }) s := rfl

theorem getFilePaths_state (w : World) (dp : String)
    (inc exc : List String) (s : UFSState) :
    (UnifiedFileSystem.getFilePaths w dp inc exc s).2.1 =
      (w.glob dp inc exc).foldl
        (fun acc p =>
          { acc with
            entries := mapSet acc.entries (w.hash p) ⟨EntryKind.file, p⟩ }) s := rfl

theorem readDirectory_pairs_mono (w : World) (dp : String) (s : UFSState)
    (l r : PathHashDigest) (h : (l, r) ∈ s.directoryFiles.pairs) :
    (l, r) ∈
      ((UnifiedFileSystem.readDirectory w dp s).2.1).directoryFiles.pairs := by
  rw [readDirectory_state]
  refine foldl_preserve (fun t => (l, r) ∈ t.directoryFiles.pairs) _ ?_ _ s h
  intro t e ht
  exact mem_pairs_upsert _ _ _ _ _ ht

theorem entries_isSome_applyOp (w : World) (s : UFSState) (op : FacadeOp)
    (k : PathHashDigest) (h : (mapGet s.entries k).isSome) :
    (mapGet (applyOp w s op).entries k).isSome := by
  have hdir : ∀ (p : String) (t : UFSState), (mapGet t.entries k).isSome →
      (mapGet ((UnifiedFileSystem.upsertUnifiedDirectory w p t).2.1).entries
        k).isSome := by
    intro p t ht
    unfold UnifiedFileSystem.upsertUnifiedDirectory
    cases hg : mapGet t.entries (w.hash p) with
    | none =>
        by_cases hk : (w.getUnifiedEntry p).kind = EntryKind.directory
        · simpa [hg, hk] using mapGet_isSome_mapSet t.entries (w.hash p) k _ ht
        · simpa [hg, hk] using ht
    | some e => simpa [hg] using ht
  have hfile : ∀ (p : String) (t : UFSState), (mapGet t.entries k).isSome →
      (mapGet ((UnifiedFileSystem.upsertUnifiedFile w p t).2.1).entries
        k).isSome := by
    intro p t ht
    unfold UnifiedFileSystem.upsertUnifiedFile
    cases hg : mapGet t.entries (w.hash p) with
    | none =>
        by_cases hk : (w.getUnifiedEntry p).kind = EntryKind.file
        · simpa [hg, hk] using mapGet_isSome_mapSet t.entries (w.hash p) k _ ht
        · simpa [hg, hk] using ht
    | some e => simpa [hg] using ht
  cases op with
  | opUpsertDirectory p => exact hdir p s h
  | opUpsertFile p => exact hfile p s h
  | opUpsertEntry p =>
      have hmain : (mapGet
          ((UnifiedFileSystem.upsertUnifiedEntry w p s).2.1).entries k).isSome := by
        unfold UnifiedFileSystem.upsertUnifiedEntry
        cases hu : UnifiedFileSystem.upsertUnifiedDirectory w p s with
        | mk r1 rest =>
            obtain ⟨s1, ev1⟩ := rest
            have h1 : (mapGet s1.entries k).isSome := by
              have := hdir p s h
              rw [hu] at this
              exact this
            cases r1 with
            | none => simpa using hfile p s1 h1
            | some e => simpa using h1
      exact hmain
  | opReadDirectory p =>
      show (mapGet ((UnifiedFileSystem.readDirectory w p s).2.1).entries k).isSome
      rw [readDirectory_state]
      refine foldl_preserve (fun t => (mapGet t.entries k).isSome) _ ?_ _ s h
      intro t e ht
      exact mapGet_isSome_mapSet t.entries (w.hash e.path) k e ht
  | opGetFilePaths p inc exc =>
      show (mapGet
        ((UnifiedFileSystem.getFilePaths w p inc exc s).2.1).entries k).isSome
      rw [getFilePaths_state]
      refine foldl_preserve (fun t => (mapGet t.entries k).isSome) _ ?_ _ s h
      intro t q ht
      exact mapGet_isSome_mapSet t.entries (w.hash q) k ⟨EntryKind.file, q⟩ ht
  | opReadFile p => exact h
  | opDeleteFile p =>
      exact mapGet_isSome_mapSet s.entries (w.hash p) k _ h
  | opUpsertData p d =>
      exact mapGet_isSome_mapSet s.entries (w.hash p) k _ h

theorem upsertUnifiedFile_events (w : World) (p : String) (s : UFSState) :
    ∀ e ∈ (UnifiedFileSystem.upsertUnifiedFile w p s).2.2,
      e = Event.getEntryCalled p := by
  intro e he
  unfold UnifiedFileSystem.upsertUnifiedFile at he
  cases hg : mapGet s.entries (w.hash p) with
  | none =>
      by_cases hk : (w.getUnifiedEntry p).kind = EntryKind.file
      · simpa [hg, hk] using he
      · simpa [hg, hk] using he
  | some e0 => simp [hg] at he

theorem upsertUnifiedDirectory_events (w : World) (p : String) (s : UFSState) :
    ∀ e ∈ (UnifiedFileSystem.upsertUnifiedDirectory w p s).2.2,
      e = Event.getEntryCalled p := by
  intro e he
  unfold UnifiedFileSystem.upsertUnifiedDirectory at he
  cases hg : mapGet s.entries (w.hash p) with
  | none =>
      by_cases hk : (w.getUnifiedEntry p).kind = EntryKind.directory
      · simpa [hg, hk] using he
      · simpa [hg, hk] using he
  | some e0 => simp [hg] at he

theorem readFile_events (w : World) (s : UFSState) (p : String) :
    ∀ e ∈ (UnifiedFileSystem.readFile w s p).2,
      e = Event.readFileCalled p := by
  intro e he
  unfold UnifiedFileSystem.readFile at he
  cases hg : mapGet s.changes (w.hash p) with
  | none =>
      cases hb : w.readFileBacking p with
      | none => simpa [hg, hb] using he
      | some d => simpa [hg, hb] using he
  | some o =>
      cases o with
      | none => simp [hg] at he
      | some d => simp [hg] at he

theorem runList_events_forbid (step : Command → UFSState → RunResult)
    (bad : Event) (cs : List Command)
    (hstep : ∀ c ∈ cs, ∀ s, bad ∉ (step c s).events) :
    ∀ s, bad ∉ (runList step cs s).events := by
  induction cs with
  | nil => intro s; simp [runList]
  | cons c cs ih =>
      intro s
      unfold runList
      by_cases hf : (step c s).fatal = true
      · simpa [hf] using hstep c (by simp) s
      · rw [if_neg hf]
        simp only [List.mem_append, not_or]
        exact ⟨hstep c (by simp) s,
          ih (fun c' hc' s' => hstep c' (by simp [hc']) s') _⟩

/-- No dispatch starting from a command that is not `handleDirectory` can
invoke a directory hook: the recursion from `handleFile` descends only into
file commands and from `upsertFile` only into data commands. -/
theorem no_dirHook_of_not_handleDirectory (w : World) (rm : Repomod) :
    ∀ (f : Nat) (c : Command) (s : UFSState) (q : String),
      isHandleDirectoryCommand c = false →
      Event.dirHookCalled q ∉ (handleCommand w rm f c s).events := by
  intro f
  induction f with
  | zero => intro c s q _; simp [handleCommand]
  | succ f ih =>
      intro c s q hc
      match c with
      | Command.dir (DirectoryCommand.handleDirectory p opts) =>
          simp [isHandleDirectoryCommand] at hc
      | Command.dir (DirectoryCommand.handleFile p opts) =>
          rw [handleCommand]
          cases hu : UnifiedFileSystem.upsertUnifiedFile w p s with
          | mk r1 rest =>
              obtain ⟨s1, ev1⟩ := rest
              have hev1 : Event.dirHookCalled q ∉ ev1 := by
                intro hmem
                have := upsertUnifiedFile_events w p s (Event.dirHookCalled q)
                  (by rw [hu]; exact hmem)
                exact Event.noConfusion this
              cases r1 with
              | none => simpa using hev1
              | some e =>
                  simp only [List.mem_append, List.mem_singleton, not_or]
                  refine ⟨⟨hev1, by simp⟩, ?_⟩
                  refine runList_events_forbid (handleCommand w rm f) _ _
                    ?_ _
                  intro c' hc' s'
                  obtain ⟨fc, _, rfl⟩ := List.mem_map.mp hc'
                  exact ih (Command.file fc) s' q rfl
      | Command.file (FileCommand.upsertFile p opts) =>
          rw [handleCommand]
          cases hr : UnifiedFileSystem.readFile w s p with
          | mk res ev1 =>
              have hev1 : Event.dirHookCalled q ∉ ev1 := by
                intro hmem
                have := readFile_events w s p (Event.dirHookCalled q)
                  (by rw [hr]; exact hmem)
                exact Event.noConfusion this
              cases res with
              | alreadyDeleted => simpa using hev1
              | content d =>
                  simp only [List.mem_append, List.mem_singleton, not_or]
                  exact ⟨⟨hev1, by simp⟩,
                    ih (Command.data
                        ((rm.handleData.getD defaultHandleData) p d opts s).1)
                      ((rm.handleData.getD defaultHandleData) p d opts s).2 q
                      rfl⟩
      | Command.file (FileCommand.deleteFile p) => simp [handleCommand]
      | Command.file (FileCommand.moveFile a b opts) => simp [handleCommand]
      | Command.file (FileCommand.copyFile a b opts) => simp [handleCommand]
      | Command.data (DataCommand.upsertData p d) => simp [handleCommand]
      | Command.data DataCommand.noop => simp [handleCommand]

/-! ### Claim theorems -/

/-- C2: for every world, every prior facade state (hence any prior Change
Ledger contents) and every path `p`, after `deleteFile p` a `readFile p`
fails with the distinct already-deleted condition, consulting no backing
collaborator. -/
theorem C2_deleteFile_then_readFile_already_deleted (w : World) (s : UFSState)
    (p : String) :
    UnifiedFileSystem.readFile w (UnifiedFileSystem.deleteFile w s p) p =
      (ReadResult.alreadyDeleted, []) := by
  simp [UnifiedFileSystem.readFile, UnifiedFileSystem.deleteFile,
    mapGet_mapSet_self]

/-- C3: for every world (hence any backing content for `p`), every prior
facade state and every string `x`, after `upsertData p x` a `readFile p`
returns exactly `x`, with an empty collaborator trace: the backing read is
not consulted. -/
theorem C3_upsertData_then_readFile_roundtrip (w : World) (s : UFSState)
    (p x : String) :
    UnifiedFileSystem.readFile w (UnifiedFileSystem.upsertData w s p x) p =
      (ReadResult.content x, []) := by
  simp [UnifiedFileSystem.readFile, UnifiedFileSystem.upsertData,
    mapGet_mapSet_self]

/-- C5: when the Change Ledger holds no entry for `p` (neither staged
content nor a deletion marker) and the backing read fails, `readFile p`
recovers into the empty string instead of propagating the failure; the
backing read is the one collaborator consulted. -/
theorem C5_readFile_swallows_backing_failure (w : World) (s : UFSState)
    (p : String) (h1 : mapGet s.changes (w.hash p) = none)
    (h2 : w.readFileBacking p = none) :
    UnifiedFileSystem.readFile w s p =
      (ReadResult.content "", [Event.readFileCalled p]) := by
  simp [UnifiedFileSystem.readFile, h1, h2]

/-- Witness for C5 at a concrete input: a fresh facade over a world whose
backing read always fails. -/
theorem C5_readFile_swallows_backing_failure_witness :
    mapGet initialState.changes (wId.hash "/a") = none ∧
      wId.readFileBacking "/a" = none ∧
      UnifiedFileSystem.readFile wId initialState "/a" =
        (ReadResult.content "", [Event.readFileCalled "/a"]) :=
  ⟨rfl, rfl, C5_readFile_swallows_backing_failure wId initialState "/a" rfl rfl⟩

/-- C6: on a fresh facade instance, for every path `p` — observed or not —
`exists p` and `isDirectory p` are both `false`; both operations are pure
Entry Cache lookups whose embedding takes no backing collaborator beyond the
digest, so no backing store is consulted regardless of what really exists. -/
theorem C6_fresh_instance_reports_nothing (w : World) (p : String) :
    UnifiedFileSystem.pathExists w initialState p = false ∧
      UnifiedFileSystem.isDirectory w initialState p = false :=
  ⟨rfl, rfl⟩

/-- C1 counterexample: cache `/f` as a file (by upserting it against a
backing store that describes every path as a file), then call
`upsertUnifiedDirectory` on it.  The claim says the result is `none`; in
fact the cached file Entry itself is returned — the cache-hit path performs
no kind check at all. -/
theorem C1_cached_kind_mismatch_counterexample :
    (UnifiedFileSystem.upsertUnifiedDirectory wId "/f"
        (UnifiedFileSystem.upsertUnifiedFile wId "/f" initialState).2.1).1 =
      some ⟨EntryKind.file, "/f"⟩ ∧
    (UnifiedFileSystem.upsertUnifiedDirectory wId "/f"
        (UnifiedFileSystem.upsertUnifiedFile wId "/f" initialState).2.1).1 ≠
      none := by
  constructor
  · rfl
  · decide

/-- C1 amended: for a path `p` already present in the Entry Cache — with
either kind — both `upsertDirectory(p)` and `upsertFile(p)` return the
cached Entry unchanged (not "none", even on a kind mismatch), leave the
whole state untouched, and consult no backing collaborator; the "none"
rejection arises only for uncached paths whose backing kind disagrees. -/
theorem C1_cached_upsert_returns_cached_entry (w : World) (s : UFSState)
    (p : String) (e : UnifiedEntry)
    (h : mapGet s.entries (w.hash p) = some e) :
    UnifiedFileSystem.upsertUnifiedDirectory w p s = (some e, s, []) ∧
    UnifiedFileSystem.upsertUnifiedFile w p s = (some e, s, []) := by
  constructor
  · unfold UnifiedFileSystem.upsertUnifiedDirectory
    simp [h]
  · unfold UnifiedFileSystem.upsertUnifiedFile
    simp [h]

/-- Witness for the amended C1 at a concrete input: `/f` cached as a file. -/
theorem C1_cached_upsert_returns_cached_entry_witness :
    mapGet ((UnifiedFileSystem.upsertUnifiedFile wId "/f"
        initialState).2.1).entries (wId.hash "/f") =
      some ⟨EntryKind.file, "/f"⟩ ∧
    (UnifiedFileSystem.upsertUnifiedDirectory wId "/f"
        (UnifiedFileSystem.upsertUnifiedFile wId "/f" initialState).2.1 =
      (some ⟨EntryKind.file, "/f"⟩,
        (UnifiedFileSystem.upsertUnifiedFile wId "/f" initialState).2.1, []) ∧
    UnifiedFileSystem.upsertUnifiedFile wId "/f"
        (UnifiedFileSystem.upsertUnifiedFile wId "/f" initialState).2.1 =
      (some ⟨EntryKind.file, "/f"⟩,
        (UnifiedFileSystem.upsertUnifiedFile wId "/f" initialState).2.1, [])) :=
  ⟨rfl, C1_cached_upsert_returns_cached_entry wId _ "/f" ⟨EntryKind.file, "/f"⟩ rfl⟩

/-- C4: staging `upsertData p a` then `upsertData p b` on a fresh facade and
building the external commands yields exactly the single command
`upsertFile p b`; and in general `upsertData` preserves the invariant that
the Change Ledger holds at most one entry per path key (so the external
command list, one command per ledger entry found in the cache, lists each
staged key at most once). -/
theorem C4_last_write_wins (w : World) (p a b : String) (s : UFSState)
    (h : (s.changes.map Prod.fst).Nodup) :
    UnifiedFileSystem.buildExternalFileCommands
        (UnifiedFileSystem.upsertData w
          (UnifiedFileSystem.upsertData w initialState p a) p b) =
      [ExternalFileCommand.upsertFile p b] ∧
    (((UnifiedFileSystem.upsertData w s p b).changes).map Prod.fst).Nodup := by
  constructor
  · simp [UnifiedFileSystem.buildExternalFileCommands,
      UnifiedFileSystem.upsertData, initialState, mapSet, mapGet]
  · exact keys_mapSet_nodup s.changes (w.hash p) (some b) h

/-- Witness for C4 at a concrete input. -/
theorem C4_last_write_wins_witness :
    ((initialState.changes.map Prod.fst).Nodup) ∧
    (UnifiedFileSystem.buildExternalFileCommands
        (UnifiedFileSystem.upsertData wId
          (UnifiedFileSystem.upsertData wId initialState "/a" "a") "/a" "b") =
      [ExternalFileCommand.upsertFile "/a" "b"] ∧
    (((UnifiedFileSystem.upsertData wId initialState "/a" "b").changes).map
        Prod.fst).Nodup) :=
  ⟨by simp [initialState],
    C4_last_write_wins wId "/a" "a" "b" initialState (by simp [initialState])⟩

/-- C10 counterexample: `deleteFile "/d/p"`, then a `readDirectory "/d"`
against a backing store that reports `/d/p` as a directory child.  The claim
says `isDirectory "/d/p"` stays `false` for the rest of the run; in fact the
listing overwrites the cached Entry's kind and `isDirectory` becomes
`true`. -/
theorem C10_isDirectory_not_stable_counterexample :
    UnifiedFileSystem.isDirectory wC10
        ((UnifiedFileSystem.readDirectory wC10 "/d"
          (UnifiedFileSystem.deleteFile wC10 initialState "/d/p")).2.1)
        "/d/p" = true := by
  rfl

/-- C10 amended: immediately after `deleteFile p`, `exists p` is `true` and
`isDirectory p` is `false` (the deletion unconditionally records a file
Entry); and `exists p` — unlike `isDirectory p` — remains `true` after any
further sequence of facade operations, because no operation ever removes an
Entry Cache record. -/
theorem C10_deleteFile_reports_existing_file (w : World) (s : UFSState)
    (p : String) (ops : List FacadeOp) :
    UnifiedFileSystem.pathExists w (UnifiedFileSystem.deleteFile w s p) p =
      true ∧
    UnifiedFileSystem.isDirectory w (UnifiedFileSystem.deleteFile w s p) p =
      false ∧
    UnifiedFileSystem.pathExists w
        (ops.foldl (applyOp w) (UnifiedFileSystem.deleteFile w s p)) p =
      true := by
  refine ⟨?_, ?_, ?_⟩
  · simp [UnifiedFileSystem.pathExists, UnifiedFileSystem.deleteFile, mapHas,
      mapGet_mapSet_self]
  · simp [UnifiedFileSystem.isDirectory, UnifiedFileSystem.deleteFile,
      mapGet_mapSet_self]
  · have hbase : (mapGet (UnifiedFileSystem.deleteFile w s p).entries
        (w.hash p)).isSome := by
      simp [UnifiedFileSystem.deleteFile, mapGet_mapSet_self]
    have := foldl_preserve
      (fun t : UFSState => (mapGet t.entries (w.hash p)).isSome)
      (applyOp w) (fun t op ht => entries_isSome_applyOp w t op (w.hash p) ht)
      ops _ hbase
    simpa [UnifiedFileSystem.pathExists, mapHas] using this

/-- C7: a `moveFile` or `copyFile` command is a silent no-op for the
dispatcher: the state (Entry Cache, Directory Membership Index and Change
Ledger alike) is returned unchanged, no collaborator or hook event is
emitted, and no fatal condition is raised, at every fuel. -/
theorem C7_moveFile_copyFile_silent_noop (w : World) (rm : Repomod) (f : Nat)
    (oldPath newPath : String) (opts : Options) (s : UFSState) :
    handleCommand w rm f
        (Command.file (FileCommand.moveFile oldPath newPath opts)) s =
      ⟨s, [], false⟩ ∧
    handleCommand w rm f
        (Command.file (FileCommand.copyFile oldPath newPath opts)) s =
      ⟨s, [], false⟩ := by
  cases f <;> exact ⟨rfl, rfl⟩

/-- C8: sticky directory membership.  Concretely: a first `readDirectory d`
against a backing store listing children `ea` (path `a`) and `eb` (path `b`),
followed by a second `readDirectory d` against a backing store that now
reports only `ea`, still returns both `a` and `b`.  In general, recorded
(parent, child) membership facts survive every later `readDirectory`: the
Directory Membership Index only ever grows within a run. -/
theorem C8_sticky_directory_membership (w1 w2 : World) (d a b : String)
    (ea eb : UnifiedEntry)
    (hhash : w2.hash = w1.hash)
    (hab : w1.hash a ≠ w1.hash b)
    (hpa : ea.path = a) (hpb : eb.path = b)
    (h1 : w1.readDirectoryBacking d = [ea, eb])
    (h2 : w2.readDirectoryBacking d = [ea]) :
    (a ∈ (UnifiedFileSystem.readDirectory w2 d
        (UnifiedFileSystem.readDirectory w1 d initialState).2.1).1 ∧
     b ∈ (UnifiedFileSystem.readDirectory w2 d
        (UnifiedFileSystem.readDirectory w1 d initialState).2.1).1) ∧
    ∀ (w : World) (dp : String) (s : UFSState) (l r : PathHashDigest),
      (l, r) ∈ s.directoryFiles.pairs →
      (l, r) ∈
        ((UnifiedFileSystem.readDirectory w dp s).2.1).directoryFiles.pairs := by
  have hba : w1.hash b ≠ w1.hash a := Ne.symm hab
  refine ⟨?_, fun w dp s l r h => readDirectory_pairs_mono w dp s l r h⟩
  simp [UnifiedFileSystem.readDirectory, h1, h2, hhash, hpa, hpb, initialState,
    LeftRightHashSetManager.upsert, LeftRightHashSetManager.getRightHashesByLeftHash,
    mapSet, mapGet, hab, hba, Prod.ext_iff]

/-- Witness for C8 at a concrete input: `/d` first listed with children
`/d/a` and `/d/b`, then listed again when the backing store reports only
`/d/a`. -/
theorem C8_sticky_directory_membership_witness :
    (wC8second.hash = wC8first.hash ∧
     wC8first.hash "/d/a" ≠ wC8first.hash "/d/b" ∧
     wC8first.readDirectoryBacking "/d" =
       [⟨EntryKind.file, "/d/a"⟩, ⟨EntryKind.file, "/d/b"⟩] ∧
     wC8second.readDirectoryBacking "/d" = [⟨EntryKind.file, "/d/a"⟩]) ∧
    ("/d/a" ∈ (UnifiedFileSystem.readDirectory wC8second "/d"
        (UnifiedFileSystem.readDirectory wC8first "/d" initialState).2.1).1 ∧
     "/d/b" ∈ (UnifiedFileSystem.readDirectory wC8second "/d"
        (UnifiedFileSystem.readDirectory wC8first "/d" initialState).2.1).1) :=
  ⟨⟨rfl, by decide, rfl, rfl⟩,
    (C8_sticky_directory_membership wC8first wC8second "/d" "/d/a" "/d/b"
      ⟨EntryKind.file, "/d/a"⟩ ⟨EntryKind.file, "/d/b"⟩ rfl (by decide) rfl rfl
      rfl rfl).1⟩

/-- C9: for a `handleDirectory` command when include patterns are declared,
the dispatcher first resolves them through the glob-backed `getFilePaths`
and fully dispatches one `handleFile` per matched path in order (the
sequential `runList` over exactly `ps.map (handleFile · opts)`), and only
then calls `upsertDirectory` on the command's path; when that returns
"none", the run of this branch ends with exactly the state produced by the
failed upsert and no further work: in particular no directory hook is ever
invoked on this branch (`dirHookCalled p` is not in the trace). -/
theorem C9_fast_path_then_abandoned_on_none (w : World) (rm : Repomod)
    (f : Nat) (p : String) (opts : Options) (s s1 s2 s3 : UFSState)
    (inc ps : List String) (ev1 ev2 ev3 : List Event)
    (hinc : rm.includePatterns = some inc)
    (hg : UnifiedFileSystem.getFilePaths w p inc (rm.excludePatterns.getD [])
      s = (ps, s1, ev1))
    (hd : runList (handleCommand w rm f)
        (ps.map fun q => Command.dir (DirectoryCommand.handleFile q opts)) s1
      = ⟨s2, ev2, false⟩)
    (hu : UnifiedFileSystem.upsertUnifiedDirectory w p s2 = (none, s3, ev3)) :
    handleCommand w rm (f + 1)
        (Command.dir (DirectoryCommand.handleDirectory p opts)) s
      = ⟨s3, (ev1 ++ ev2) ++ ev3, false⟩ ∧
    Event.dirHookCalled p ∉ (ev1 ++ ev2) ++ ev3 := by
  have hne1 : Event.dirHookCalled p ∉ ev1 := by
    have hev : ev1 = [Event.globCalled p inc (rm.excludePatterns.getD [])] := by
      have := congrArg (fun t : List String × UFSState × List Event => t.2.2) hg
      simpa [UnifiedFileSystem.getFilePaths] using this.symm
    simp [hev]
  have hne2 : Event.dirHookCalled p ∉ ev2 := by
    have hforbid := runList_events_forbid (handleCommand w rm f)
      (Event.dirHookCalled p)
      (ps.map fun q => Command.dir (DirectoryCommand.handleFile q opts))
      (fun c hc s' => by
        obtain ⟨q, _, rfl⟩ := List.mem_map.mp hc
        exact no_dirHook_of_not_handleDirectory w rm f _ s' p rfl) s1
    rw [hd] at hforbid
    exact hforbid
  have hne3 : Event.dirHookCalled p ∉ ev3 := by
    intro hmem
    have := upsertUnifiedDirectory_events w p s2 (Event.dirHookCalled p)
      (by rw [hu]; exact hmem)
    exact Event.noConfusion this
  refine ⟨?_, by simp [List.mem_append, hne1, hne2, hne3]⟩
  simp only [handleCommand, hinc, hg, hd, afterFastPath, hu]
  rfl

/-- Witness for C9 at a concrete input: glob matches `/x` (handled through
the default hooks: upsert, read `"c"`, noop), then upserting `/d` as a
directory fails because the backing store describes it as a file, so the
branch is abandoned and no directory hook runs. -/
theorem C9_fast_path_then_abandoned_on_none_witness :
    (rmC9.includePatterns = some ["*"] ∧
     UnifiedFileSystem.getFilePaths wC9 "/d" ["*"]
         (rmC9.excludePatterns.getD []) initialState
       = (["/x"], sC9, [Event.globCalled "/d" ["*"] []]) ∧
     runList (handleCommand wC9 rmC9 2)
         ((["/x"]).map fun q => Command.dir (DirectoryCommand.handleFile q []))
         sC9
       = ⟨sC9, [Event.fileHookCalled "/x", Event.readFileCalled "/x",
           Event.dataHookCalled "/x"], false⟩ ∧
     UnifiedFileSystem.upsertUnifiedDirectory wC9 "/d" sC9
       = (none, sC9, [Event.getEntryCalled "/d"])) ∧
    (handleCommand wC9 rmC9 3
        (Command.dir (DirectoryCommand.handleDirectory "/d" [])) initialState
      = ⟨sC9, ([Event.globCalled "/d" ["*"] []] ++
          [Event.fileHookCalled "/x", Event.readFileCalled "/x",
            Event.dataHookCalled "/x"]) ++ [Event.getEntryCalled "/d"],
          false⟩ ∧
     Event.dirHookCalled "/d" ∉ ([Event.globCalled "/d" ["*"] []] ++
        [Event.fileHookCalled "/x", Event.readFileCalled "/x",
          Event.dataHookCalled "/x"]) ++ [Event.getEntryCalled "/d"]) :=
  ⟨⟨rfl, rfl, rfl, rfl⟩,
    C9_fast_path_then_abandoned_on_none wC9 rmC9 2 "/d" [] initialState sC9
      sC9 sC9 ["*"] ["/x"] [Event.globCalled "/d" ["*"] []]
      [Event.fileHookCalled "/x", Event.readFileCalled "/x",
        Event.dataHookCalled "/x"] [Event.getEntryCalled "/d"]
      rfl rfl rfl rfl⟩

end Filemod
